import Mathlib

/-!
Verification of the portfolio-gallery repository (Next.js API routes plus the
client gallery controller) against its natural-language specification.

JavaScript strings are modelled as lists of characters (`Str`), so that the
string primitives the source uses (`split('#')`, `trim()`, `indexOf`) are
explicit executable Lean functions. JavaScript numbers holding counters are
modelled as `Int` (the like endpoint can drive a counter negative).
`Set<string>` objects of the client controller are modelled as `Finset String`.
Asynchronous network calls are modelled by passing the outcome of the call
(success payload or failure) as an explicit argument to the handler; each
handler is a pure transition function on the controller state, mirroring the
source statement by statement.
-/

/-- A JavaScript string, modelled as its list of characters. -/
abbrev Str := List Char

/-- Model of JavaScript `String.prototype.trim`: drop whitespace characters
from both ends of the string. -/
def strTrim (s : Str) : Str :=
  ((s.dropWhile Char.isWhitespace).reverse.dropWhile Char.isWhitespace).reverse

/-- Model of JavaScript `s.split('#')` (from `processTags`, src/unnamed/part_000
line 59): cut the string at every `'#'`, keeping empty pieces, so that
`"".split('#') = [""]` and `"#a#b".split('#') = ["", "a", "b"]`. -/
def splitHash : Str → List Str
  | [] => [[]]
  | x :: xs =>
    match splitHash xs with
    | [] => [[x]]
    | y :: ys => if x = '#' then [] :: y :: ys else (x :: y) :: ys

/-- First index of `x` in a list (the value of JavaScript `self.indexOf(x)`
for an `x` that occurs in `self`; for absent `x` JavaScript returns `-1`,
which never arises below because the deduplication filter only evaluates
`indexOf` on elements of the array itself). -/
def firstIdx (x : Str) : List Str → Nat
  | [] => 0
  | y :: ys => if y = x then 0 else firstIdx x ys + 1

/-- Model of the deduplication step of `processTags` (src/unnamed/part_000
line 65), `arr.filter((tag, index, self) => self.indexOf(tag) === index)`:
walk the array with its running index `i`, keeping an element exactly when
the first index of its value in the whole array `self` equals `i`. -/
def keepFirstIndex (self : List Str) : Nat → List Str → List Str
  | _, [] => []
  | i, t :: ts =>
    if firstIdx t self = i then t :: keepFirstIndex self (i + 1) ts
    else keepFirstIndex self (i + 1) ts

/-- The JavaScript dedup filter applied to a whole array. -/
def jsDedup (l : List Str) : List Str := keepFirstIndex l 0 l

/-- Model of `processTags` (src/unnamed/part_000 lines 55-67). The source
declares `maxTags` with default value `8`; the default is passed explicitly
here. -/
def processTags (tags : List Str) (maxTags : Nat) : List Str :=
  let allTags := tags.flatMap fun tag =>
    (splitHash tag).filter fun t => 0 < (strTrim t).length
  (jsDedup ((allTags.map strTrim).filter fun t => 0 < t.length)).take maxTags

/-- Reference deduplication written from the specification's words
("deduplicate case-sensitively preserving first-seen order"): keep an element
when it has not been seen yet, accumulating the seen values. -/
def dedupFirstFrom (seen : List Str) : List Str → List Str
  | [] => []
  | x :: xs =>
    if x ∈ seen then dedupFirstFrom seen xs
    else x :: dedupFirstFrom (seen ++ [x]) xs

/-- Reference tag-normalization pipeline, written from the specification's
words (spec.md section 4.4): split every raw entry on `'#'`, discard empty
fragments, trim each fragment, discard post-trim-empty fragments, deduplicate
case-sensitively keeping first-seen order, truncate to the maximum count. -/
def specNormalizeTags (tags : List Str) (maxTags : Nat) : List Str :=
  let fragments := tags.flatMap fun t => (splitHash t).filter fun f => f ≠ []
  let trimmed := (fragments.map strTrim).filter fun f => f ≠ []
  (dedupFirstFrom [] trimmed).take maxTags

example : processTags ["#a#b".toList, "c".toList, "#a".toList] 8
    = ["a".toList, "b".toList, "c".toList] := by decide

example : specNormalizeTags ["#a#b".toList, "c".toList, "#a".toList] 8
    = ["a".toList, "b".toList, "c".toList] := by decide

theorem strTrim_nil : strTrim [] = [] := rfl

theorem firstIdx_lt_length_of_mem {x : Str} {l : List Str} (h : x ∈ l) :
    firstIdx x l < l.length := by
  induction l with
  | nil => cases h
  | cons y ys ih =>
    by_cases hy : y = x
    · simp [firstIdx, hy]
    · have hx : x ∈ ys := by
        cases h with
        | head => exact absurd rfl hy
        | tail _ h' => exact h'
      have := ih hx
      simp only [firstIdx, if_neg hy, List.length_cons]
      omega

theorem firstIdx_append_of_mem {x : Str} {l₁ : List Str} (l₂ : List Str) (h : x ∈ l₁) :
    firstIdx x (l₁ ++ l₂) = firstIdx x l₁ := by
  induction l₁ with
  | nil => cases h
  | cons y ys ih =>
    by_cases hy : y = x
    · simp [firstIdx, hy]
    · have hx : x ∈ ys := by
        cases h with
        | head => exact absurd rfl hy
        | tail _ h' => exact h'
      simp [firstIdx, hy, ih hx]

theorem firstIdx_append_self {x : Str} {l₁ : List Str} (l₂ : List Str) (h : x ∉ l₁) :
    firstIdx x (l₁ ++ x :: l₂) = l₁.length := by
  induction l₁ with
  | nil => simp [firstIdx]
  | cons y ys ih =>
    have hy : ¬ y = x := by
      intro e
      subst e
      exact h (List.mem_cons_self y ys)
    have h' : x ∉ ys := fun hx => h (List.mem_cons_of_mem _ hx)
    simp [firstIdx, hy, ih h']

theorem dedupFirstFrom_congr {s₁ s₂ : List Str} (l : List Str)
    (h : ∀ a, a ∈ s₁ ↔ a ∈ s₂) : dedupFirstFrom s₁ l = dedupFirstFrom s₂ l := by
  induction l generalizing s₁ s₂ with
  | nil => rfl
  | cons x xs ih =>
    by_cases hx : x ∈ s₁
    · have hx₂ : x ∈ s₂ := (h x).mp hx
      simp [dedupFirstFrom, hx, hx₂, ih h]
    · have hx₂ : x ∉ s₂ := fun m => hx ((h x).mpr m)
      have h' : ∀ a, a ∈ s₁ ++ [x] ↔ a ∈ s₂ ++ [x] := by
        intro a
        simp [List.mem_append, h a]
      simp [dedupFirstFrom, hx, hx₂, ih h']

theorem keepFirstIndex_eq (sub : List Str) : ∀ pre : List Str,
    keepFirstIndex (pre ++ sub) pre.length sub = dedupFirstFrom pre sub := by
  induction sub with
  | nil => intro pre; rfl
  | cons t ts ih =>
    intro pre
    have hrec : keepFirstIndex (pre ++ t :: ts) (pre.length + 1) ts
        = dedupFirstFrom (pre ++ [t]) ts := by
      have h := ih (pre ++ [t])
      simpa [List.append_assoc] using h
    by_cases ht : t ∈ pre
    · have hne : firstIdx t (pre ++ t :: ts) ≠ pre.length := by
        rw [firstIdx_append_of_mem _ ht]
        exact Nat.ne_of_lt (firstIdx_lt_length_of_mem ht)
      have hsets : ∀ a, a ∈ pre ++ [t] ↔ a ∈ pre := by
        intro a
        simp only [List.mem_append, List.mem_singleton]
        constructor
        · rintro (h' | rfl)
          · exact h'
          · exact ht
        · exact Or.inl
      simp only [keepFirstIndex, if_neg hne, hrec, dedupFirstFrom, if_pos ht]
      exact dedupFirstFrom_congr ts hsets
    · have heq : firstIdx t (pre ++ t :: ts) = pre.length := firstIdx_append_self ts ht
      simp only [keepFirstIndex, if_pos heq, hrec, dedupFirstFrom, if_neg ht]

theorem jsDedup_eq (l : List Str) : jsDedup l = dedupFirstFrom [] l := by
  simpa using keepFirstIndex_eq l []

theorem trimFilter_eq (L : List Str) :
    ((L.filter fun t => 0 < (strTrim t).length).map strTrim).filter (fun t => 0 < t.length)
      = ((L.filter fun f => f ≠ []).map strTrim).filter fun f => f ≠ [] := by
  rw [List.filter_map, List.filter_map, List.filter_filter, List.filter_filter]
  refine congrArg (List.map strTrim) (List.filter_congr ?_)
  intro t _
  by_cases h : strTrim t = []
  · simp [Function.comp, h]
  · have ht : ¬ t = [] := by
      intro e
      rw [e] at h
      exact h rfl
    simp [Function.comp, h, ht, List.length_pos]

theorem processTags_eq_specNormalizeTags (tags : List Str) (m : Nat) :
    processTags tags m = specNormalizeTags tags m := by
  simp only [processTags, specNormalizeTags]
  rw [jsDedup_eq]
  have hstage :
      ((tags.flatMap fun tag => (splitHash tag).filter fun t => 0 < (strTrim t).length).map
          strTrim).filter (fun t => 0 < t.length)
        = ((tags.flatMap fun t => (splitHash t).filter fun f => f ≠ []).map strTrim).filter
            fun f => f ≠ [] := by
    simp only [List.map_flatMap, List.filter_flatMap]
    exact List.flatMap_congr fun t _ => trimFilter_eq (splitHash t)
  rw [hstage]

/-- C3: for every input sequence of raw tag strings and every maximum count,
`processTags` equals the reference pipeline: split every entry on `'#'`,
discard empty fragments, trim each fragment, discard post-trim-empty
fragments, deduplicate case-sensitively keeping first-seen order, truncate to
the maximum; in particular on input `["#a#b", "c", "#a"]` with limit 8 it
returns `["a", "b", "c"]`. -/
theorem C3_processTags_matches_reference :
    (∀ tags maxTags, processTags tags maxTags = specNormalizeTags tags maxTags)
    ∧ processTags ["#a#b".toList, "c".toList, "#a".toList] 8
        = ["a".toList, "b".toList, "c".toList] :=
  ⟨processTags_eq_specNormalizeTags, by decide⟩

theorem dropWhile_dropWhile (p : Char → Bool) (l : Str) :
    List.dropWhile p (List.dropWhile p l) = List.dropWhile p l := by
  induction l with
  | nil => rfl
  | cons x xs ih =>
    by_cases h : p x
    · simp [List.dropWhile_cons, h, ih]
    · simp [List.dropWhile_cons, h]

theorem head?_dropWhile {p : Char → Bool} {l : Str} {a : Char}
    (h : (List.dropWhile p l).head? = some a) : p a = false := by
  induction l with
  | nil => simp at h
  | cons x xs ih =>
    by_cases hx : p x
    · rw [List.dropWhile_cons, if_pos hx] at h
      exact ih h
    · rw [List.dropWhile_cons, if_neg hx] at h
      simp only [List.head?_cons, Option.some.injEq] at h
      subst h
      exact Bool.eq_false_iff.mpr hx

theorem getLast?_dropWhile {p : Char → Bool} {l : Str}
    (h : List.dropWhile p l ≠ []) : (List.dropWhile p l).getLast? = l.getLast? := by
  induction l with
  | nil => simp at h
  | cons x xs ih =>
    by_cases hx : p x
    · rw [List.dropWhile_cons, if_pos hx] at h ⊢
      have hxs : xs ≠ [] := by
        intro e
        rw [e] at h
        exact h rfl
      obtain ⟨y, ys, rfl⟩ := List.exists_cons_of_ne_nil hxs
      rw [ih h, List.getLast?_cons_cons]
    · rw [List.dropWhile_cons, if_neg hx]

theorem dropWhile_strTrim (l : Str) :
    List.dropWhile Char.isWhitespace (strTrim l) = strTrim l := by
  unfold strTrim
  cases hBr : ((l.dropWhile Char.isWhitespace).reverse.dropWhile Char.isWhitespace).reverse with
  | nil => simp
  | cons a tail =>
    have hBne : (l.dropWhile Char.isWhitespace).reverse.dropWhile Char.isWhitespace ≠ [] := by
      intro e
      rw [e] at hBr
      simp at hBr
    have h1 : ((l.dropWhile Char.isWhitespace).reverse.dropWhile Char.isWhitespace).getLast?
        = some a := by
      rw [← List.head?_reverse, hBr]
      rfl
    have h2 : (l.dropWhile Char.isWhitespace).reverse.getLast? = some a := by
      rw [← getLast?_dropWhile hBne]
      exact h1
    have h3 : (l.dropWhile Char.isWhitespace).head? = some a := by
      rw [← List.head?_reverse] at h2
      rw [List.reverse_reverse] at h2
      exact h2
    have hpa : Char.isWhitespace a = false := head?_dropWhile h3
    rw [List.dropWhile_cons, hpa]
    simp

theorem strTrim_strTrim (l : Str) : strTrim (strTrim l) = strTrim l := by
  show (((strTrim l).dropWhile Char.isWhitespace).reverse.dropWhile Char.isWhitespace).reverse
      = strTrim l
  rw [dropWhile_strTrim]
  have h2 : (strTrim l).reverse
      = (l.dropWhile Char.isWhitespace).reverse.dropWhile Char.isWhitespace := by
    unfold strTrim
    rw [List.reverse_reverse]
  rw [h2, dropWhile_dropWhile]
  rfl

theorem mem_of_mem_strTrim {l : Str} {a : Char} (h : a ∈ strTrim l) : a ∈ l := by
  unfold strTrim at h
  rw [List.mem_reverse] at h
  have h1 := (List.dropWhile_sublist _).mem h
  rw [List.mem_reverse] at h1
  exact (List.dropWhile_sublist _).mem h1

theorem splitHash_ne_nil (s : Str) : splitHash s ≠ [] := by
  cases s with
  | nil => simp [splitHash]
  | cons x xs =>
    simp only [splitHash]
    cases h : splitHash xs with
    | nil => simp
    | cons y ys =>
      by_cases hx : x = '#' <;> simp [hx]

theorem not_hash_of_mem_splitHash {s t : Str} (h : t ∈ splitHash s) : '#' ∉ t := by
  induction s generalizing t with
  | nil =>
    simp [splitHash] at h
    subst h
    simp
  | cons x xs ih =>
    cases hs : splitHash xs with
    | nil => exact absurd hs (splitHash_ne_nil xs)
    | cons y ys =>
      simp only [splitHash, hs] at h
      by_cases hx : x = '#'
      · rw [if_pos hx] at h
        cases h with
        | head => simp
        | tail _ h' =>
          refine ih ?_
          rw [hs]
          exact h'
      · rw [if_neg hx] at h
        cases h with
        | head =>
          intro hm
          cases hm with
          | head => exact hx rfl
          | tail _ hm' =>
            have hy : '#' ∉ y := by
              refine ih ?_
              rw [hs]
              exact List.mem_cons_self y ys
            exact hy hm'
        | tail _ h' =>
          refine ih ?_
          rw [hs]
          exact List.mem_cons_of_mem y h'

theorem splitHash_eq_singleton {s : Str} (h : '#' ∉ s) : splitHash s = [s] := by
  induction s with
  | nil => rfl
  | cons x xs ih =>
    have hx : ¬ x = '#' := by
      intro e
      subst e
      exact h (List.mem_cons_self _ _)
    have hxs : '#' ∉ xs := fun m => h (List.mem_cons_of_mem _ m)
    simp only [splitHash, ih hxs, if_neg hx]

theorem mem_of_mem_dedupFirstFrom {seen l : List Str} {a : Str}
    (h : a ∈ dedupFirstFrom seen l) : a ∈ l := by
  induction l generalizing seen with
  | nil => simp [dedupFirstFrom] at h
  | cons x xs ih =>
    simp only [dedupFirstFrom] at h
    by_cases hx : x ∈ seen
    · rw [if_pos hx] at h
      exact List.mem_cons_of_mem _ (ih h)
    · rw [if_neg hx] at h
      cases h with
      | head => exact List.mem_cons_self _ _
      | tail _ h' => exact List.mem_cons_of_mem _ (ih h')

theorem not_mem_seen_of_mem_dedupFirstFrom {seen l : List Str} {a : Str}
    (h : a ∈ dedupFirstFrom seen l) : a ∉ seen := by
  induction l generalizing seen with
  | nil => simp [dedupFirstFrom] at h
  | cons x xs ih =>
    simp only [dedupFirstFrom] at h
    by_cases hx : x ∈ seen
    · rw [if_pos hx] at h
      exact ih h
    · rw [if_neg hx] at h
      cases h with
      | head => exact hx
      | tail _ h' =>
        have hni := ih h'
        intro hm
        exact hni (List.mem_append_left _ hm)

theorem nodup_dedupFirstFrom (seen l : List Str) : (dedupFirstFrom seen l).Nodup := by
  induction l generalizing seen with
  | nil => exact List.nodup_nil
  | cons x xs ih =>
    simp only [dedupFirstFrom]
    by_cases hx : x ∈ seen
    · rw [if_pos hx]
      exact ih seen
    · rw [if_neg hx]
      refine List.nodup_cons.mpr ⟨?_, ih _⟩
      intro hmem
      exact not_mem_seen_of_mem_dedupFirstFrom hmem
        (List.mem_append_right _ (List.mem_singleton_self x))

theorem dedupFirstFrom_eq_self {seen l : List Str} (hnd : l.Nodup)
    (hdis : ∀ a ∈ l, a ∉ seen) : dedupFirstFrom seen l = l := by
  induction l generalizing seen with
  | nil => rfl
  | cons x xs ih =>
    have hx : x ∉ seen := hdis x (List.mem_cons_self _ _)
    simp only [dedupFirstFrom, if_neg hx]
    congr 1
    refine ih (List.nodup_cons.mp hnd).2 ?_
    intro a ha hm
    rcases List.mem_append.mp hm with h1 | h2
    · exact hdis a (List.mem_cons_of_mem _ ha) h1
    · rw [List.mem_singleton] at h2
      subst h2
      exact (List.nodup_cons.mp hnd).1 ha

theorem processTags_mem {ts : List Str} {m : Nat} {e : Str}
    (h : e ∈ processTags ts m) : e ≠ [] ∧ strTrim e = e ∧ '#' ∉ e := by
  simp only [processTags] at h
  have h1 := (List.take_sublist _ _).mem h
  rw [jsDedup_eq] at h1
  have h2 := mem_of_mem_dedupFirstFrom h1
  rw [List.mem_filter] at h2
  obtain ⟨h3, h4⟩ := h2
  rw [List.mem_map] at h3
  obtain ⟨f, hf, rfl⟩ := h3
  rw [List.mem_flatMap] at hf
  obtain ⟨tag, _, hftag⟩ := hf
  have hmem : f ∈ splitHash tag := List.mem_of_mem_filter hftag
  have hne : strTrim f ≠ [] := by
    intro e
    rw [e] at h4
    simp at h4
  refine ⟨hne, strTrim_strTrim f, ?_⟩
  intro hm
  exact not_hash_of_mem_splitHash hmem (mem_of_mem_strTrim hm)

theorem processTags_nodup (ts : List Str) (m : Nat) : (processTags ts m).Nodup := by
  simp only [processTags]
  refine (List.take_sublist _ _).nodup ?_
  rw [jsDedup_eq]
  exact nodup_dedupFirstFrom _ _

/-- C4: tag normalization is idempotent: for every sequence that is already
the output of `processTags`, and every truncation limit at least that
sequence's length, normalizing it again yields the same sequence in the same
order. -/
theorem C4_processTags_idempotent (ts : List Str) (m k : Nat)
    (hk : (processTags ts m).length ≤ k) :
    processTags (processTags ts m) k = processTags ts m := by
  set out := processTags ts m with hout
  have hmem : ∀ e ∈ out, e ≠ [] ∧ strTrim e = e ∧ '#' ∉ e :=
    fun e he => processTags_mem (hout ▸ he)
  have hnd : out.Nodup := processTags_nodup ts m
  have hflat : (out.flatMap fun tag => (splitHash tag).filter fun t => 0 < (strTrim t).length)
      = out := by
    have hsing : ∀ e ∈ out,
        ((splitHash e).filter fun t => 0 < (strTrim t).length) = [e] := by
      intro e he
      obtain ⟨hne, htrim, hhash⟩ := hmem e he
      rw [splitHash_eq_singleton hhash]
      have hp : (0:Nat) < (strTrim e).length := by
        rw [htrim]
        exact List.length_pos.mpr hne
      simp [hp]
    calc (out.flatMap fun tag => (splitHash tag).filter fun t => 0 < (strTrim t).length)
        = out.flatMap (fun e => [e]) := List.flatMap_congr hsing
      _ = out := by simp
  have hmap : out.map strTrim = List.map id out :=
    List.map_congr_left fun e he => (hmem e he).2.1
  have hfil : (out.filter fun t => 0 < t.length) = out := by
    refine List.filter_eq_self.mpr ?_
    intro a ha
    have hne := (hmem a ha).1
    simp only [decide_eq_true_eq, List.length_pos]
    exact hne
  have hded : jsDedup out = out := by
    rw [jsDedup_eq]
    exact dedupFirstFrom_eq_self hnd fun a _ => List.not_mem_nil a
  show (jsDedup (((out.flatMap fun tag =>
      (splitHash tag).filter fun t => 0 < (strTrim t).length).map strTrim).filter
        fun t => 0 < t.length)).take k = out
  rw [hflat, hmap, List.map_id, hfil, hded]
  exact List.take_of_length_le hk

/-- Witness for C4 at a concrete input. -/
theorem C4_witness :
    (processTags ["#a".toList, " b ".toList] 8).length ≤ 8
    ∧ processTags (processTags ["#a".toList, " b ".toList] 8) 8
        = processTags ["#a".toList, " b ".toList] 8 :=
  ⟨by decide, C4_processTags_idempotent ["#a".toList, " b ".toList] 8 8 (by decide)⟩

/-- Client-side project record (src/unnamed/part_000 lines 6-21). Only the
fields the controller logic reads or writes are modelled; purely
presentational fields (title, category, description, image, thumbnail,
featured, status, tags, clientName, projectUrl, completedAt) do not influence
the verified flows and are omitted. -/
structure ClientProject where
  _id : String
  likes : Int
  views : Int
deriving DecidableEq

/-- Pagination metadata of a listing response (src/unnamed/part_000
lines 25-30 and src/app/api/projects/route.ts lines 42-47). -/
structure PageInfo where
  page : Nat
  limit : Nat
  total : Nat
  pages : Nat
deriving DecidableEq

/-- Listing API response as decoded by the client (src/unnamed/part_000
lines 23-31). -/
structure ApiResponse where
  projects : List ClientProject
  pagination : PageInfo
deriving DecidableEq

/-- Controller state of the `DynamicPortfolio` component (src/unnamed/part_000
lines 34-44): each field is one `useState` hook. `hoveredIndex` is
presentational and omitted. JavaScript `Set<string>` objects are modelled as
`Finset String`. -/
structure ClientState where
  projects : List ClientProject
  selectedImage : Option ClientProject
  filter : String
  loading : Bool
  likedProjects : Finset String
  currentPage : Nat
  totalPages : Nat
  isLoadingMore : Bool
  hasMore : Bool
  pendingRequests : Finset String
deriving DecidableEq

/-- Outcome of the listing fetch as seen by `fetchProjects`: a rejected fetch
and a non-ok HTTP response both land in the catch block (line 110 throws on
`!response.ok`), so they are one failure case; success carries the decoded
`ApiResponse`. -/
inductive ListOutcome
  | failure
  | success (data : ApiResponse)

/-- Outcome of the view-increment fetch as seen by `handleProjectClick`
(src/unnamed/part_000 line 150): the handler never reads the response object,
so a resolved fetch only records whether the HTTP response was ok; a rejected
fetch (network error) is `netError`. -/
inductive ViewOutcome
  | netError
  | resolved (ok : Bool)

/-- Outcome of the like mutation fetch as seen by `handleLike`: rejected
fetch, resolved non-ok response (line 197 throws), or ok response carrying
the decoded `result.likes`. -/
inductive LikeOutcome
  | netError
  | resolved (ok : Bool) (likes : Int)

/-- The like mutation settled unsuccessfully: the fetch rejected or the
response was not ok; both paths run the catch block of `handleLike`. -/
def LikeOutcome.failed : LikeOutcome → Bool
  | .netError => true
  | .resolved ok _ => !ok

/-- The listing request key `` `${page}-${filter}` `` (line 85). -/
def listRequestKey (page : Nat) (filt : String) : String :=
  toString page ++ "-" ++ filt

/-- Synchronous prefix of `fetchProjects` (lines 84-94), run before the
network call: record the request key as pending and raise the loading flag. -/
def fetchProjectsStart (page : Nat) (filt : String) (isLoadMore : Bool)
    (s : ClientState) : ClientState :=
  let s₁ := { s with pendingRequests := insert (listRequestKey page filt) s.pendingRequests }
  if isLoadMore then { s₁ with isLoadingMore := true } else { s₁ with loading := true }

/-- Merge step for a page > 1 response (lines 117-121): append only projects
whose identifier is not already present in the loaded sequence. -/
def mergeProjects (prev incoming : List ClientProject) : List ClientProject :=
  let existingIds := prev.map fun p => p._id
  prev ++ incoming.filter fun p => p._id ∉ existingIds

/-- Settling part of `fetchProjects` (lines 109-136): on success apply the
response (replace on page 1, merge on later pages, record pagination and
`hasMore`); on failure only log; in both cases clear the loading flags and
remove the request key (the `finally` block). -/
def fetchProjectsSettle (page : Nat) (filt : String) (outcome : ListOutcome)
    (s : ClientState) : ClientState :=
  let s₁ := match outcome with
    | .success data =>
        let s₂ := if page = 1 then { s with projects := data.projects }
          else { s with projects := mergeProjects s.projects data.projects }
        { s₂ with totalPages := data.pagination.pages,
                  hasMore := decide (page < data.pagination.pages) }
    | .failure => s
  { s₁ with loading := false, isLoadingMore := false,
            pendingRequests := s₁.pendingRequests.erase (listRequestKey page filt) }

/-- `fetchProjects` (lines 84-137) with the network outcome passed explicitly:
skip entirely when the request key is already pending, otherwise run the
start prefix and, once the call settles with `outcome`, the settle part. -/
def fetchProjects (page : Nat) (filt : String) (isLoadMore : Bool)
    (outcome : ListOutcome) (s : ClientState) : ClientState :=
  if listRequestKey page filt ∈ s.pendingRequests then s
  else fetchProjectsSettle page filt outcome (fetchProjectsStart page filt isLoadMore s)

/-- `handleProjectClick` (lines 143-170) with the network outcome passed
explicitly. The source awaits the fetch and then bumps the clicked project's
local view counter whenever the promise resolved — it does not inspect
`response.ok` — guarded by `p._id === project._id && p.views === project.views`;
a rejected fetch is caught and changes no project state; the `finally` block
removes the request key; the detail view is opened at the end. -/
def handleProjectClick (proj : ClientProject) (outcome : ViewOutcome)
    (s : ClientState) : ClientState :=
  let key := "view-" ++ proj._id
  if key ∈ s.pendingRequests then s
  else
    let s₁ := { s with pendingRequests := insert key s.pendingRequests }
    let s₂ := match outcome with
      | .netError => s₁
      | .resolved _ =>
          { s₁ with projects := s₁.projects.map fun p : ClientProject =>
              if p._id = proj._id ∧ p.views = proj.views
              then { p with views := p.views + 1 } else p }
    let s₃ := { s₂ with pendingRequests := s₂.pendingRequests.erase key }
    { s₃ with selectedImage := some proj }

/-- `handleLike` (lines 172-226) with the network outcome passed explicitly:
skip when pending; flip the liked-set membership optimistically; on an ok
response reconcile the authoritative `result.likes` into the project list;
on a rejected fetch or a non-ok response restore the pre-action liked-set
membership (the catch block); always remove the request key (the `finally`
block). -/
def handleLike (proj : ClientProject) (outcome : LikeOutcome)
    (s : ClientState) : ClientState :=
  let key := "like-" ++ proj._id
  if key ∈ s.pendingRequests then s
  else
    let isLiked := decide (proj._id ∈ s.likedProjects)
    let newLikedState := if isLiked then s.likedProjects.erase proj._id
      else insert proj._id s.likedProjects
    let s₁ := { s with likedProjects := newLikedState,
                       pendingRequests := insert key s.pendingRequests }
    let s₂ := match outcome with
      | .resolved true n =>
          { s₁ with projects := s₁.projects.map fun p : ClientProject =>
              if p._id = proj._id then { p with likes := n } else p }
      | .resolved false _ =>
          { s₁ with likedProjects := if isLiked then insert proj._id s₁.likedProjects
              else s₁.likedProjects.erase proj._id }
      | .netError =>
          { s₁ with likedProjects := if isLiked then insert proj._id s₁.likedProjects
              else s₁.likedProjects.erase proj._id }
    { s₂ with pendingRequests := s₂.pendingRequests.erase key }

/-- Trigger part of `fetchProjects`: the synchronous prefix alone, paired with
the number of network calls it issues (1 when the request is actually sent,
0 when the pending-set check at line 86 suppresses it). -/
def fetchTrigger (page : Nat) (filt : String) (isLoadMore : Bool)
    (s : ClientState) : ClientState × Nat :=
  if listRequestKey page filt ∈ s.pendingRequests then (s, 0)
  else (fetchProjectsStart page filt isLoadMore s, 1)

/-- `loadMoreProjects` (lines 235-241) up to its network call: when more pages
remain and no load-more is in flight, advance the page and trigger the fetch;
otherwise do nothing. Returns the state after the synchronous part together
with the number of network calls issued. -/
def loadMoreTrigger (s : ClientState) : ClientState × Nat :=
  if s.currentPage < s.totalPages ∧ s.isLoadingMore = false then
    let nextPage := s.currentPage + 1
    fetchTrigger nextPage s.filter true { s with currentPage := nextPage }
  else (s, 0)

/-- A persisted project record as the API route handlers read it; fields the
verified endpoints do not touch are omitted. Identifiers are pairwise
distinct in the real document store. -/
structure ServerProject where
  _id : String
  likes : Int
  views : Int
deriving DecidableEq

/-- A JSON value as the like endpoint's body field `liked` can carry it. -/
inductive JValue
  | undef
  | null
  | bool (b : Bool)
  | num (n : Int)
  | str (s : String)
deriving DecidableEq

/-- JavaScript truthiness of a `JValue`, deciding `liked ? 1 : -1` in the
like endpoint. A field absent from the body destructures to `undefined`,
which is falsy, as are `null`, `false`, `0` and `""`. -/
def JValue.truthy : JValue → Bool
  | .undef => false
  | .null => false
  | .bool b => b
  | .num n => decide (n ≠ 0)
  | .str s => decide (s ≠ "")

/-- Response of the like endpoint: 404 with an error body when the id is
unknown, otherwise 200 with the updated count and a message (the catch-all
500 path only fires on a persistence fault, outside this model). -/
inductive LikeResult
  | notFound
  | ok (likes : Int) (message : String)
deriving DecidableEq

/-- POST /api/projects/[id]/like (src/app/api/projects/[id]/like/route.ts
lines 5-38). `Project.findById` is the first match on `_id` in the store;
`findByIdAndUpdate` with `$inc: { likes: liked ? 1 : -1 }` and `new: true`
adds the increment to the matching record and yields the updated record,
whose `likes` is returned together with the message chosen by `liked`. -/
def likePOST (db : List ServerProject) (id : String) (liked : JValue) :
    LikeResult × List ServerProject :=
  match db.find? fun p => p._id = id with
  | none => (.notFound, db)
  | some p =>
      let inc : Int := if liked.truthy then 1 else -1
      let db' := db.map fun q : ServerProject =>
        if q._id = id then { q with likes := q.likes + inc } else q
      (.ok (p.likes + inc) (if liked.truthy then "Project liked" else "Project unliked"),
        db')

/-- One mutation-endpoint operation on an existing project record: the view
endpoint applies `$inc: { views: 1 }` (src/unnamed/part_001 lines 20-24), the
like endpoint applies `$inc: { likes: liked ? 1 : -1 }`
(src/app/api/projects/[id]/like/route.ts lines 21-25). -/
inductive EndpointOp
  | view
  | like (liked : JValue)

/-- Apply one endpoint operation to a record's counters. -/
def applyOp (p : ServerProject) : EndpointOp → ServerProject
  | .view => { p with views := p.views + 1 }
  | .like liked => { p with likes := p.likes + (if liked.truthy then 1 else -1) }

/-- Apply a sequence of endpoint operations in order. -/
def applyOps (p : ServerProject) (ops : List EndpointOp) : ServerProject :=
  ops.foldl applyOp p

/-- Number of like operations (truthy `liked`) in a sequence. -/
def likeOpCount (ops : List EndpointOp) : Nat :=
  ops.countP fun o => match o with
    | .like liked => liked.truthy
    | .view => false

/-- Number of unlike operations (falsy `liked`) in a sequence. -/
def unlikeOpCount (ops : List EndpointOp) : Nat :=
  ops.countP fun o => match o with
    | .like liked => !liked.truthy
    | .view => false

/-- Body of a listing response (src/app/api/projects/route.ts lines 40-48). -/
structure ListResult where
  projects : List ServerProject
  pagination : PageInfo
deriving DecidableEq

/-- GET /api/projects (src/app/api/projects/route.ts lines 5-56). The
persistence collaborator is external: `records` stands for the filtered,
sorted result of `Project.find(filter).sort(sort)`, so `.skip(skip).limit(limit)`
is drop and take on it, and `countDocuments(filter)` is its length.
`Math.ceil(total / limit)` on numbers is `(total + limit - 1) / limit` in
natural division when `limit ≥ 1`; the C6 theorem proves this field equal to
the rational ceiling. -/
def projectsGET (records : List ServerProject) (page limit : Nat) : ListResult :=
  let skip := (page - 1) * limit
  { projects := (records.drop skip).take limit
    pagination :=
      { page := page, limit := limit, total := records.length
        pages := (records.length + limit - 1) / limit } }

/-- C6: for every listing request with page ≥ 1 and limit ≥ 1 against a store
holding `total` matching records, the returned slice starts at offset
(page-1)·limit, contains at most `limit` projects, and the pagination
metadata echoes page and limit, reports the total, and satisfies
pages = ⌈total / limit⌉. -/
theorem C6_listing_pagination (records : List ServerProject) (page limit : Nat)
    (hp : 1 ≤ page) (hl : 1 ≤ limit) :
    (projectsGET records page limit).projects
        = (records.drop ((page - 1) * limit)).take limit
    ∧ (projectsGET records page limit).projects.length ≤ limit
    ∧ (projectsGET records page limit).pagination.page = page
    ∧ (projectsGET records page limit).pagination.limit = limit
    ∧ (projectsGET records page limit).pagination.total = records.length
    ∧ ((projectsGET records page limit).pagination.pages : ℤ)
        = ⌈(records.length : ℚ) / (limit : ℚ)⌉ := by
  refine ⟨rfl, List.length_take_le _ _, rfl, rfl, rfl, ?_⟩
  show (((records.length + limit - 1) / limit : ℕ) : ℤ)
      = ⌈(records.length : ℚ) / (limit : ℚ)⌉
  have hL : (0:ℚ) < (limit:ℚ) := by
    have h0 : 0 < limit := hl
    exact_mod_cast h0
  set t := records.length with htdef
  set q := (t + limit - 1) / limit with hq
  have hdm := Nat.div_add_mod (t + limit - 1) limit
  have e2 : limit * q + (t + limit - 1) % limit + 1 = t + limit := by
    rw [← hq] at hdm
    rw [hdm]
    omega
  have hr : (t + limit - 1) % limit < limit := Nat.mod_lt _ (by omega)
  have hub : t ≤ limit * q := by omega
  have hlb : limit * q < t + limit := by omega
  rw [eq_comm, Int.ceil_eq_iff]
  constructor
  · rw [lt_div_iff₀ hL]
    have hlbQ : (limit:ℚ) * (q:ℚ) < (t:ℚ) + (limit:ℚ) := by exact_mod_cast hlb
    have expand : ((((q:ℕ):ℤ):ℚ) - 1) * (limit:ℚ) = (limit:ℚ) * (q:ℚ) - limit := by
      push_cast
      ring
    rw [expand]
    linarith
  · rw [div_le_iff₀ hL]
    have hubQ : (t:ℚ) ≤ (limit:ℚ) * (q:ℚ) := by exact_mod_cast hub
    have expand2 : ((((q:ℕ):ℤ):ℚ)) * (limit:ℚ) = (limit:ℚ) * (q:ℚ) := by
      push_cast
      ring
    rw [expand2]
    linarith

/-- Witness for C6: a store of 5 matching records, page 1, limit 12, as in the
specification's end-to-end scenario; the slice has all 5 records and pages
is ⌈5/12⌉ = 1. -/
theorem C6_witness :
    (projectsGET [⟨"a", 0, 0⟩, ⟨"b", 0, 0⟩, ⟨"c", 0, 0⟩, ⟨"d", 0, 0⟩, ⟨"e", 0, 0⟩] 1 12).projects
        = (([⟨"a", 0, 0⟩, ⟨"b", 0, 0⟩, ⟨"c", 0, 0⟩, ⟨"d", 0, 0⟩,
             ⟨"e", 0, 0⟩] : List ServerProject).drop ((1 - 1) * 12)).take 12
    ∧ (projectsGET [⟨"a", 0, 0⟩, ⟨"b", 0, 0⟩, ⟨"c", 0, 0⟩, ⟨"d", 0, 0⟩,
          ⟨"e", 0, 0⟩] 1 12).projects.length ≤ 12
    ∧ (projectsGET [⟨"a", 0, 0⟩, ⟨"b", 0, 0⟩, ⟨"c", 0, 0⟩, ⟨"d", 0, 0⟩,
          ⟨"e", 0, 0⟩] 1 12).pagination.page = 1
    ∧ (projectsGET [⟨"a", 0, 0⟩, ⟨"b", 0, 0⟩, ⟨"c", 0, 0⟩, ⟨"d", 0, 0⟩,
          ⟨"e", 0, 0⟩] 1 12).pagination.limit = 12
    ∧ (projectsGET [⟨"a", 0, 0⟩, ⟨"b", 0, 0⟩, ⟨"c", 0, 0⟩, ⟨"d", 0, 0⟩,
          ⟨"e", 0, 0⟩] 1 12).pagination.total
        = ([⟨"a", 0, 0⟩, ⟨"b", 0, 0⟩, ⟨"c", 0, 0⟩, ⟨"d", 0, 0⟩,
            ⟨"e", 0, 0⟩] : List ServerProject).length
    ∧ ((projectsGET [⟨"a", 0, 0⟩, ⟨"b", 0, 0⟩, ⟨"c", 0, 0⟩, ⟨"d", 0, 0⟩,
          ⟨"e", 0, 0⟩] 1 12).pagination.pages : ℤ)
        = ⌈((([⟨"a", 0, 0⟩, ⟨"b", 0, 0⟩, ⟨"c", 0, 0⟩, ⟨"d", 0, 0⟩,
              ⟨"e", 0, 0⟩] : List ServerProject).length : ℚ) / ((12:ℕ) : ℚ))⌉ :=
  C6_listing_pagination [⟨"a", 0, 0⟩, ⟨"b", 0, 0⟩, ⟨"c", 0, 0⟩, ⟨"d", 0, 0⟩, ⟨"e", 0, 0⟩]
    1 12 (by decide) (by decide)

/-- C1 counterexample: a project record starting with likes = 0 and views = 0
(both non-negative), after the single endpoint operation "unlike", has a
persisted likes counter of -1 — the endpoint does not clamp at zero, so the
counters are not never-negative. -/
theorem C1_counterexample :
    (applyOps ⟨"p1", 0, 0⟩ [EndpointOp.like (JValue.bool false)]).likes < 0 := by decide

/-- C1 amended: for every project record whose counters start non-negative,
after any sequence of view-increment and like/unlike endpoint operations the
views counter is never negative (views are only ever incremented), while the
likes counter is not clamped: it equals its initial value plus the number of
like operations minus the number of unlike operations, and repeated unlikes
can therefore drive it negative. -/
theorem C1_amended_counters (p : ServerProject) (ops : List EndpointOp)
    (hv : 0 ≤ p.views) :
    0 ≤ (applyOps p ops).views
    ∧ (applyOps p ops).likes
        = p.likes + likeOpCount ops - unlikeOpCount ops := by
  induction ops generalizing p with
  | nil =>
    refine ⟨hv, ?_⟩
    simp [applyOps, likeOpCount, unlikeOpCount]
  | cons o rest ih =>
    have hv' : 0 ≤ (applyOp p o).views := by
      cases o with
      | view =>
        simp only [applyOp]
        omega
      | like jv => simpa [applyOp] using hv
    have h := ih (applyOp p o) hv'
    refine ⟨h.1, ?_⟩
    show (applyOps (applyOp p o) rest).likes
        = p.likes + likeOpCount (o :: rest) - unlikeOpCount (o :: rest)
    rw [h.2]
    cases o with
    | view => simp [applyOp, likeOpCount, unlikeOpCount, List.countP_cons]
    | like jv =>
      by_cases hj : jv.truthy = true
      · simp only [applyOp, hj, if_pos, likeOpCount, unlikeOpCount, List.countP_cons]
        simp [hj]
        ring
      · simp only [applyOp, likeOpCount, unlikeOpCount, List.countP_cons]
        simp [hj]
        ring

/-- Witness for C1's amended statement at a concrete input. -/
theorem C1_amended_witness :
    0 ≤ (ServerProject.mk "p1" 0 0).views
    ∧ (0 ≤ (applyOps ⟨"p1", 0, 0⟩
          [EndpointOp.view, EndpointOp.like (JValue.bool true)]).views
       ∧ (applyOps ⟨"p1", 0, 0⟩
            [EndpointOp.view, EndpointOp.like (JValue.bool true)]).likes
          = (ServerProject.mk "p1" 0 0).likes
            + likeOpCount [EndpointOp.view, EndpointOp.like (JValue.bool true)]
            - unlikeOpCount [EndpointOp.view, EndpointOp.like (JValue.bool true)]) :=
  ⟨by decide,
   C1_amended_counters ⟨"p1", 0, 0⟩ [EndpointOp.view, EndpointOp.like (JValue.bool true)]
     (by decide)⟩

/-- C10: a POST to the like endpoint on an existing project whose JSON body
omits the `liked` field (destructuring to `undefined`) or carries any falsy
value for it is not rejected: it is treated as an unlike, the stored likes
counter is decremented by 1, and the response carries the decremented count
with the "Project unliked" message. -/
theorem C10_falsy_liked_unlikes (db : List ServerProject) (id : String)
    (liked : JValue) (p : ServerProject)
    (hfind : (db.find? fun q => q._id = id) = some p)
    (hfalsy : liked.truthy = false) :
    (likePOST db id liked).1 = .ok (p.likes - 1) "Project unliked"
    ∧ (likePOST db id liked).2
        = db.map fun q : ServerProject =>
            if q._id = id then { q with likes := q.likes - 1 } else q := by
  simp only [likePOST, hfind, hfalsy]
  constructor
  · simp [sub_eq_add_neg]
  · refine List.map_congr_left ?_
    intro q _
    by_cases hq : q._id = id
    · simp [hq, sub_eq_add_neg]
    · simp [hq]

/-- Witness for C10 at a concrete input: one stored project with 5 likes,
body field `liked` absent (undefined). -/
theorem C10_witness :
    ((([⟨"p1", 5, 7⟩] : List ServerProject).find? fun q => q._id = "p1")
        = some ⟨"p1", 5, 7⟩)
    ∧ JValue.undef.truthy = false
    ∧ (likePOST [⟨"p1", 5, 7⟩] "p1" JValue.undef).1
        = .ok ((ServerProject.mk "p1" 5 7).likes - 1) "Project unliked" :=
  ⟨by decide, by decide,
   (C10_falsy_liked_unlikes [⟨"p1", 5, 7⟩] "p1" JValue.undef ⟨"p1", 5, 7⟩
      (by decide) (by decide)).1⟩

/-- C5: in the like flow, for every project, if the network mutation fails
after the optimistic flip (rejected fetch or non-ok response), the liked-set
is restored exactly to its pre-action value — in particular the membership of
the project's identifier reverts — and the project list, hence the numeric
likes counter, is not modified on that failure path. -/
theorem C5_like_rollback (proj : ClientProject) (outcome : LikeOutcome)
    (s : ClientState) (hpend : "like-" ++ proj._id ∉ s.pendingRequests)
    (hfail : outcome.failed = true) :
    (handleLike proj outcome s).likedProjects = s.likedProjects
    ∧ (handleLike proj outcome s).projects = s.projects := by
  cases outcome with
  | netError =>
    by_cases hl : proj._id ∈ s.likedProjects
    · simp [handleLike, hpend, hl, Finset.insert_erase hl]
    · simp [handleLike, hpend, hl, Finset.erase_insert hl]
  | resolved ok n =>
    cases ok with
    | true => simp [LikeOutcome.failed] at hfail
    | false =>
      by_cases hl : proj._id ∈ s.likedProjects
      · simp [handleLike, hpend, hl, Finset.insert_erase hl]
      · simp [handleLike, hpend, hl, Finset.erase_insert hl]

/-- Witness for C5 at a concrete input: one loaded project, liked-set empty,
rejected fetch. -/
theorem C5_witness :
    ("like-" ++ (ClientProject.mk "p1" 3 4)._id
        ∉ (ClientState.mk [⟨"p1", 3, 4⟩] none "all" false ∅ 1 1 false true ∅).pendingRequests)
    ∧ LikeOutcome.netError.failed = true
    ∧ ((handleLike ⟨"p1", 3, 4⟩ LikeOutcome.netError
          ⟨[⟨"p1", 3, 4⟩], none, "all", false, ∅, 1, 1, false, true, ∅⟩).likedProjects
        = (ClientState.mk [⟨"p1", 3, 4⟩] none "all" false ∅ 1 1 false true ∅).likedProjects
       ∧ (handleLike ⟨"p1", 3, 4⟩ LikeOutcome.netError
            ⟨[⟨"p1", 3, 4⟩], none, "all", false, ∅, 1, 1, false, true, ∅⟩).projects
        = (ClientState.mk [⟨"p1", 3, 4⟩] none "all" false ∅ 1 1 false true ∅).projects) :=
  ⟨by decide, by decide,
   C5_like_rollback ⟨"p1", 3, 4⟩ LikeOutcome.netError
     ⟨[⟨"p1", 3, 4⟩], none, "all", false, ∅, 1, 1, false, true, ∅⟩ (by decide) (by decide)⟩

/-- C8: for every controller action (listing fetch, view increment, like
mutation) and every outcome (success or failure), the pending-request set
does not retain that action's request key once the request settles: the key
added before the network call is removed on every completion path. -/
theorem C8_pending_key_released (page : Nat) (filt : String) (isLoadMore : Bool)
    (lo : ListOutcome) (vo : ViewOutcome) (ko : LikeOutcome)
    (proj : ClientProject) (s : ClientState)
    (h₁ : listRequestKey page filt ∉ s.pendingRequests)
    (h₂ : "view-" ++ proj._id ∉ s.pendingRequests)
    (h₃ : "like-" ++ proj._id ∉ s.pendingRequests) :
    listRequestKey page filt ∉ (fetchProjects page filt isLoadMore lo s).pendingRequests
    ∧ "view-" ++ proj._id ∉ (handleProjectClick proj vo s).pendingRequests
    ∧ "like-" ++ proj._id ∉ (handleLike proj ko s).pendingRequests := by
  refine ⟨?_, ?_, ?_⟩
  · cases lo with
    | failure =>
      cases isLoadMore <;>
        simp [fetchProjects, fetchProjectsStart, fetchProjectsSettle, h₁, Finset.mem_erase]
    | success data =>
      by_cases hp : page = 1
      · subst hp
        cases isLoadMore <;>
          simp [fetchProjects, fetchProjectsStart, fetchProjectsSettle, h₁, Finset.mem_erase]
      · cases isLoadMore <;>
          simp [fetchProjects, fetchProjectsStart, fetchProjectsSettle, h₁, hp,
            Finset.mem_erase]
  · cases vo with
    | netError => simp [handleProjectClick, h₂, Finset.mem_erase]
    | resolved ok => simp [handleProjectClick, h₂, Finset.mem_erase]
  · cases ko with
    | netError =>
      by_cases hl : proj._id ∈ s.likedProjects <;>
        simp [handleLike, h₃, hl, Finset.mem_erase]
    | resolved ok n =>
      cases ok <;> by_cases hl : proj._id ∈ s.likedProjects <;>
        simp [handleLike, h₃, hl, Finset.mem_erase]

/-- Witness for C8 at a concrete input: empty pending set, page 1 of "all",
failure outcomes. -/
theorem C8_witness :
    listRequestKey 1 "all"
      ∉ (fetchProjects 1 "all" false ListOutcome.failure
          ⟨[], none, "all", false, ∅, 1, 1, false, true, ∅⟩).pendingRequests
    ∧ "view-" ++ (ClientProject.mk "p1" 0 0)._id
      ∉ (handleProjectClick ⟨"p1", 0, 0⟩ ViewOutcome.netError
          ⟨[], none, "all", false, ∅, 1, 1, false, true, ∅⟩).pendingRequests
    ∧ "like-" ++ (ClientProject.mk "p1" 0 0)._id
      ∉ (handleLike ⟨"p1", 0, 0⟩ LikeOutcome.netError
          ⟨[], none, "all", false, ∅, 1, 1, false, true, ∅⟩).pendingRequests :=
  C8_pending_key_released 1 "all" false ListOutcome.failure ViewOutcome.netError
    LikeOutcome.netError ⟨"p1", 0, 0⟩ ⟨[], none, "all", false, ∅, 1, 1, false, true, ∅⟩
    (by decide) (by decide) (by decide)

/-- C2, evaluated at the failing input: `handleProjectClick` on a loaded
project with 5 views, where the view-increment fetch resolves with a non-ok
(failed) HTTP response, still bumps the local view counter to 6 — the source
never checks `response.ok` on this path (unlike `fetchProjects` line 110 and
`handleLike` line 197), so the local counter changes on a failed response. -/
theorem C2_bump_on_failed_response :
    (handleProjectClick ⟨"p1", 0, 5⟩ (ViewOutcome.resolved false)
        ⟨[⟨"p1", 0, 5⟩], none, "all", false, ∅, 1, 1, false, true, ∅⟩).projects
      = [⟨"p1", 0, 6⟩]
    ∧ (handleProjectClick ⟨"p1", 0, 5⟩ (ViewOutcome.resolved false)
        ⟨[⟨"p1", 0, 5⟩], none, "all", false, ∅, 1, 1, false, true, ∅⟩).projects
      ≠ (ClientState.mk [⟨"p1", 0, 5⟩] none "all" false ∅ 1 1 false true ∅).projects :=
  ⟨by decide, by decide⟩

/-- C9: a trigger of the listing fetch whose (page, filter) key is already in
the pending-request set issues no network call; and two load-more triggers
for the same page, the second arriving while the first is still outstanding,
issue exactly one network call in total (the first issues it, the second is
suppressed). -/
theorem C9_request_dedup :
    (∀ (page : Nat) (filt : String) (isLoadMore : Bool) (s : ClientState),
        listRequestKey page filt ∈ s.pendingRequests →
        (fetchTrigger page filt isLoadMore s).2 = 0)
    ∧ (∀ s : ClientState, s.currentPage < s.totalPages → s.isLoadingMore = false →
        listRequestKey (s.currentPage + 1) s.filter ∉ s.pendingRequests →
        (loadMoreTrigger s).2 = 1
        ∧ (loadMoreTrigger (loadMoreTrigger s).1).2 = 0) := by
  constructor
  · intro page filt isLoadMore s h
    simp [fetchTrigger, h]
  · intro s h1 h2 h3
    have hfirst : loadMoreTrigger s
        = (fetchProjectsStart (s.currentPage + 1) s.filter true
            { s with currentPage := s.currentPage + 1 }, 1) := by
      simp [loadMoreTrigger, h1, h2, fetchTrigger, h3]
    refine ⟨?_, ?_⟩
    · rw [hfirst]
    · rw [hfirst]
      simp [loadMoreTrigger, fetchProjectsStart]

/-- Witness for C9 at concrete inputs: a state already holding the key "1-all"
suppresses a trigger for page 1 of "all"; a fresh state on page 1 of 2 issues
one call on the first load-more trigger and none on the second. -/
theorem C9_witness :
    (fetchTrigger 1 "all" false
        ⟨[], none, "all", false, ∅, 1, 2, false, true,
          insert (listRequestKey 1 "all") ∅⟩).2 = 0
    ∧ ((loadMoreTrigger ⟨[], none, "all", false, ∅, 1, 2, false, true, ∅⟩).2 = 1
       ∧ (loadMoreTrigger
            (loadMoreTrigger
              ⟨[], none, "all", false, ∅, 1, 2, false, true, ∅⟩).1).2 = 0) :=
  ⟨C9_request_dedup.1 1 "all" false
     ⟨[], none, "all", false, ∅, 1, 2, false, true, insert (listRequestKey 1 "all") ∅⟩
     (by decide),
   C9_request_dedup.2 ⟨[], none, "all", false, ∅, 1, 2, false, true, ∅⟩
     (by decide) (by decide) (by decide)⟩

theorem mergeProjects_nodup {prev incoming : List ClientProject}
    (h1 : (prev.map fun p => p._id).Nodup)
    (h2 : (incoming.map fun p => p._id).Nodup) :
    ((mergeProjects prev incoming).map fun p => p._id).Nodup := by
  simp only [mergeProjects]
  rw [List.map_append, List.nodup_append]
  refine ⟨h1, ?_, ?_⟩
  · exact ((List.filter_sublist incoming).map fun p => p._id).nodup h2
  · intro a ha hb
    rw [List.mem_map] at hb
    obtain ⟨p, hp, rfl⟩ := hb
    rw [List.mem_filter] at hp
    have hnp := hp.2
    simp only [decide_eq_true_eq] at hnp
    exact hnp ha

theorem fetchProjects_page1_projects (filt : String) (lm : Bool) (d : ApiResponse)
    (s : ClientState) (h : listRequestKey 1 filt ∉ s.pendingRequests) :
    (fetchProjects 1 filt lm (ListOutcome.success d) s).projects = d.projects := by
  cases lm <;> simp [fetchProjects, h, fetchProjectsStart, fetchProjectsSettle]

theorem fetchProjects_later_page_projects (page : Nat) (filt : String) (lm : Bool)
    (d : ApiResponse) (s : ClientState)
    (h : listRequestKey page filt ∉ s.pendingRequests) (hp : page ≠ 1) :
    (fetchProjects page filt lm (ListOutcome.success d) s).projects
      = mergeProjects s.projects d.projects := by
  cases lm <;> simp [fetchProjects, h, hp, fetchProjectsStart, fetchProjectsSettle]

/-- C7: a successful page-1 fetch replaces the loaded sequence outright with
the response; a successful page-2 fetch appends only the response's projects
whose identifier is not already present; hence loading page 2 after page 1,
where each response's own identifiers are distinct but page 2 may repeat
identifiers from page 1, leaves the loaded sequence free of duplicate
identifiers. -/
theorem C7_page_merge_no_duplicates (s : ClientState) (filt : String)
    (lm₁ lm₂ : Bool) (d₁ d₂ : ApiResponse)
    (h₁ : listRequestKey 1 filt ∉ s.pendingRequests)
    (h₂ : listRequestKey 2 filt
        ∉ (fetchProjects 1 filt lm₁ (ListOutcome.success d₁) s).pendingRequests)
    (hn₁ : (d₁.projects.map fun p => p._id).Nodup)
    (hn₂ : (d₂.projects.map fun p => p._id).Nodup) :
    (fetchProjects 1 filt lm₁ (ListOutcome.success d₁) s).projects = d₁.projects
    ∧ (fetchProjects 2 filt lm₂ (ListOutcome.success d₂)
          (fetchProjects 1 filt lm₁ (ListOutcome.success d₁) s)).projects
        = d₁.projects
            ++ d₂.projects.filter (fun p => p._id ∉ (d₁.projects.map fun q => q._id))
    ∧ ((fetchProjects 2 filt lm₂ (ListOutcome.success d₂)
          (fetchProjects 1 filt lm₁ (ListOutcome.success d₁) s)).projects.map
            fun p => p._id).Nodup := by
  have hs₁ : (fetchProjects 1 filt lm₁ (ListOutcome.success d₁) s).projects
      = d₁.projects := fetchProjects_page1_projects filt lm₁ d₁ s h₁
  have hs₂ : (fetchProjects 2 filt lm₂ (ListOutcome.success d₂)
        (fetchProjects 1 filt lm₁ (ListOutcome.success d₁) s)).projects
      = mergeProjects d₁.projects d₂.projects := by
    rw [fetchProjects_later_page_projects 2 filt lm₂ d₂ _ h₂ (by decide), hs₁]
  refine ⟨hs₁, ?_, ?_⟩
  · rw [hs₂]
    rfl
  · rw [hs₂]
    exact mergeProjects_nodup hn₁ hn₂

/-- Witness for C7 at concrete inputs: page 1 delivers project "a"; page 2
delivers projects "a" and "b" (repeating "a"); the loaded sequence ends as
["a", "b"] with distinct identifiers. -/
theorem C7_witness :
    (fetchProjects 1 "all" false
        (ListOutcome.success ⟨[⟨"a", 0, 0⟩], ⟨1, 12, 2, 2⟩⟩)
        ⟨[], none, "all", false, ∅, 1, 1, false, true, ∅⟩).projects
      = [⟨"a", 0, 0⟩]
    ∧ (fetchProjects 2 "all" true
          (ListOutcome.success ⟨[⟨"a", 0, 0⟩, ⟨"b", 0, 0⟩], ⟨2, 12, 2, 2⟩⟩)
          (fetchProjects 1 "all" false
            (ListOutcome.success ⟨[⟨"a", 0, 0⟩], ⟨1, 12, 2, 2⟩⟩)
            ⟨[], none, "all", false, ∅, 1, 1, false, true, ∅⟩)).projects
        = [(⟨"a", 0, 0⟩ : ClientProject)]
            ++ ([⟨"a", 0, 0⟩, ⟨"b", 0, 0⟩] : List ClientProject).filter
                (fun p => p._id ∉ (([(⟨"a", 0, 0⟩ : ClientProject)]).map fun q => q._id))
    ∧ ((fetchProjects 2 "all" true
          (ListOutcome.success ⟨[⟨"a", 0, 0⟩, ⟨"b", 0, 0⟩], ⟨2, 12, 2, 2⟩⟩)
          (fetchProjects 1 "all" false
            (ListOutcome.success ⟨[⟨"a", 0, 0⟩], ⟨1, 12, 2, 2⟩⟩)
            ⟨[], none, "all", false, ∅, 1, 1, false, true, ∅⟩)).projects.map
              fun p => p._id).Nodup :=
  C7_page_merge_no_duplicates ⟨[], none, "all", false, ∅, 1, 1, false, true, ∅⟩ "all"
    false true ⟨[⟨"a", 0, 0⟩], ⟨1, 12, 2, 2⟩⟩ ⟨[⟨"a", 0, 0⟩, ⟨"b", 0, 0⟩], ⟨2, 12, 2, 2⟩⟩
    (by decide) (by decide) (by decide) (by decide)
